import Mathlib

/-!
Shallow embedding of the chainrag backend (src/backend/main.py) together with
the tag-normalization helpers shared with src/scripts/fetch_data.py and
src/scripts/ingest_data.py, and proofs about the retrieval planner, the
retrieval executor, the index cache, and the preparation-job endpoints.

Conventions of the embedding:
* Python/JSON scalar values that flow out of the intent-extraction call are
  modelled by `JsonVal` (integers, strings, booleans, null).  Python treats
  `bool` as a subtype of `int` (`isinstance(True, int)` is `True`,
  `int(True) = 1`), which the embedding reproduces.
* Tags are sequences of Unicode codepoints (`List Nat`); the regular
  expression `[^a-zA-Z0-9_-]+`, `str.strip("-")` and `str.lower()` are
  embedded codepoint by codepoint (`lower` only ever acts on characters kept
  by the character class, all of which are ASCII).
* The FAISS vector store, the embedding model and the LLM are external
  collaborators: `similarity_search` is an oracle parameter of the executor,
  a loaded store handle is an opaque `Nat`, and on-disk state is a function
  from tags to optional (optionally deserializable) blobs.
* Python's `sorted(key=..., reverse=...)` is a stable sort; every stable
  sort agrees with it elementwise on a total preorder of keys, so it is
  embedded by `List.insertionSort` on the corresponding key order (stability
  of `insertionSort` is proved below, `filter_insertionSort_of_key`).
* `int(v)` — which raises on non-coercible values — is modelled as an
  `Option Int`; a `none` sort key makes the whole retrieval fail, exactly
  like the uncaught `ValueError`/`TypeError` inside `sorted` in the source.
-/

namespace ChainRAG

/-- Scalar Python/JSON value as produced by `JsonOutputParser` for the
fields of the extracted intent. -/
inductive JsonVal where
  | vInt (n : Int)
  | vStr (s : String)
  | vBool (b : Bool)
  | vNull
  deriving DecidableEq, Repr

/-- Python truthiness of a `JsonVal` (used by `if v` and by the
filter-cleaning dict comprehension in `chat_endpoint`). -/
def truthyVal : JsonVal → Bool
  | JsonVal.vInt n => decide (n ≠ 0)
  | JsonVal.vStr s => decide (s ≠ "")
  | JsonVal.vBool b => b
  | JsonVal.vNull => false

/-- Python truthiness of `intent.get("sort")`: `None` (absent key) is falsy. -/
def truthy : Option JsonVal → Bool
  | none => false
  | some v => truthyVal v

/-- Python `isinstance(v, int)`: true for integers and booleans. -/
def isInstInt : JsonVal → Bool
  | JsonVal.vInt _ => true
  | JsonVal.vBool _ => true
  | _ => false

/-- Numeric value of a `JsonVal` that passed `isinstance(v, int)`
(booleans count as 1/0 in Python arithmetic and comparisons). -/
def pyIntOfInst : JsonVal → Int
  | JsonVal.vInt n => n
  | JsonVal.vBool b => if b then 1 else 0
  | _ => 0

/-- Python `int(v)` as a fallible coercion: integers and booleans succeed,
numeric strings parse, everything else (null, non-numeric strings) raises,
modelled as `none`.  Embeds the coercion inside the sort key of
`chat_endpoint` (src/backend/main.py line 258). -/
def toPyInt : JsonVal → Option Int
  | JsonVal.vInt n => some n
  | JsonVal.vBool b => some (if b then 1 else 0)
  | JsonVal.vStr s => s.toInt?
  | JsonVal.vNull => none

/-- Raw intent as returned by the extraction chain: the three keys the
parser is asked for.  `none` fields model absent keys of the Python dict. -/
structure RawIntent where
  filters : List (String × JsonVal)
  sort : Option JsonVal
  limit : Option JsonVal
  deriving DecidableEq, Repr

/-- Limit resolution of `chat_endpoint` (src/backend/main.py lines 223-230):
`user_limit = intent.get("limit", 5)`, replaced by 5 when not an `int`,
then capped at 20.  There is no lower cap in the source. -/
def resolveLimit (v : Option JsonVal) : Int :=
  let u : Int :=
    match v with
    | none => 5
    | some x => if isInstInt x then pyIntOfInst x else 5
  if u > 20 then 20 else u

/-- Filter cleaning of `chat_endpoint` (src/backend/main.py line 220):
`{k: v for k, v in intent.get("filters", {}).items() if v}`. -/
def cleanFilters (fs : List (String × JsonVal)) : List (String × JsonVal) :=
  fs.filter fun kv => truthyVal kv.2

/-- The retrieval plan actually executed: cleaned filters, the raw sort
value, and the resolved limit. -/
structure Plan where
  filters : List (String × JsonVal)
  sort : Option JsonVal
  limit : Int
  deriving DecidableEq, Repr

/-- Planner post-processing applied to a successfully extracted intent. -/
def mkPlan (r : RawIntent) : Plan :=
  ⟨cleanFilters r.filters, r.sort, resolveLimit r.limit⟩

/-- The value found at the `"filters"` key of an extracted intent dict:
either a JSON object (a Python dict, whose `.items()` succeeds at
src/backend/main.py line 220) or a present non-dict value — null, a
scalar, or an array — on which `.items()` raises `AttributeError`.  The
payload of `fBad` records the offending scalar where one exists (a JSON
array behaves identically: `.items()` raises). -/
inductive FiltersVal where
  | fObj (fs : List (String × JsonVal))
  | fBad (v : JsonVal)
  deriving DecidableEq, Repr

/-- A parsed intent-extraction output as the Python object
`JsonOutputParser` hands back: a JSON object with optional `"filters"`,
`"sort"` and `"limit"` keys, or a non-object JSON value (array, string,
number, boolean, null), on which `intent.get` raises `AttributeError`
(the payload of `nonObj` records a representative scalar; an array
behaves identically). -/
inductive PyIntent where
  | obj (filters : Option FiltersVal) (sort : Option JsonVal)
      (limit : Option JsonVal)
  | nonObj (v : JsonVal)
  deriving DecidableEq, Repr

/-- The plan computation of `chat_endpoint` (src/backend/main.py lines
211-230) from the outcome of `filter_chain.invoke`.  The inner
`try/except` (lines 212-217) replaces a RAISING call by the empty dict,
so that path always yields the default plan.  But a call that RETURNS a
non-dict, or a dict whose `"filters"` value is not a dict, raises
`AttributeError` at line 220 — outside the inner `try` — which the outer
handler at line 276 turns into an HTTP 500: modelled as `Except.error`. -/
def chatPlanE (e : Except Unit PyIntent) : Except Unit Plan :=
  let intent : PyIntent :=
    match e with
    | Except.ok v => v
    | Except.error _ => PyIntent.obj none none none
  match intent with
  | PyIntent.nonObj _ => Except.error ()
  | PyIntent.obj fv sort limit =>
    match fv.getD (FiltersVal.fObj []) with
    | FiltersVal.fBad _ => Except.error ()
    | FiltersVal.fObj fl =>
      Except.ok ⟨cleanFilters fl, sort, resolveLimit limit⟩

/-- A retrieved document, projected to the fields the retrieval logic
touches: `page_content` and the `timestamp` metadata entry.
`timestamp = none` models a document whose metadata lacks the key
(`metadata.get("timestamp", 0)` then supplies the default `0`). -/
structure Doc where
  page_content : String
  timestamp : Option JsonVal
  deriving DecidableEq, Repr

/-- The sort key of the wide-net sort, `int(x.metadata.get("timestamp", 0))`
(src/backend/main.py line 258): a missing key defaults to `0`; a present
value goes through Python `int(...)`, which raises (`none`) when the value
is not integer-coercible. -/
def sortKey (d : Doc) : Option Int :=
  match d.timestamp with
  | none => some 0
  | some v => toPyInt v

/-- Integer timestamp of a document whose sort key is defined. -/
def intTs (d : Doc) : Int := (sortKey d).getD 0

/-- Python `sorted(l, key=key, reverse=rev)` on a total integer key,
embedded as the stable `insertionSort` on the corresponding key order
(ascending for `rev = false`, descending for `rev = true`). -/
def pySorted {α : Type} (key : α → Int) (rev : Bool) (l : List α) : List α :=
  if rev then l.insertionSort fun a b => key b ≤ key a
  else l.insertionSort fun a b => key a ≤ key b

/-- Python slice `l[:n]` for an integer bound: a non-negative bound keeps
the first `n` elements, a negative bound drops the last `|n|`. -/
def pySliceTo {α : Type} (n : Int) (l : List α) : List α :=
  if 0 ≤ n then l.take n.toNat else l.take (l.length - n.natAbs)

/-- Wide-net post-processing of `chat_endpoint` (src/backend/main.py lines
250-263): compute every document's sort key (failing like `sorted` does if
any key raises), stable-sort by timestamp with `reverse = (sort == "desc")`,
then slice to the resolved limit. -/
def sortDocs (rev : Bool) (docs : List Doc) : Option (List Doc) :=
  if docs.all fun d => (sortKey d).isSome then some (pySorted intTs rev docs)
  else none

/-- The pool size handed to `similarity_search` (src/backend/main.py lines
237-241): the resolved limit, widened to 5000 whenever `sort_order` is
truthy. -/
def k_val (p : Plan) : Int :=
  if truthy p.sort then 5000 else p.limit

/-- The retrieval executor of `chat_endpoint` (src/backend/main.py lines
233-263).  `search` is the FAISS `similarity_search` oracle, taking the
cleaned filters (empty list = no filter argument) and the pool size `k`.
The result is `none` exactly when the sort-key coercion raises. -/
def retrieve (search : List (String × JsonVal) → Int → List Doc) (p : Plan) :
    Option (List Doc) :=
  let docs := search p.filters (k_val p)
  if truthy p.sort then
    let rev : Bool := decide (p.sort = some (JsonVal.vStr "desc"))
    (sortDocs rev docs).map fun l => pySliceTo p.limit l
  else some docs

/-- A raw or normalized tag, as a sequence of Unicode codepoints. -/
abbrev Tag : Type := List Nat

/-- Membership in the character class `[a-zA-Z0-9_-]` of the sanitizing
regular expression (codepoints: `a`-`z` 97-122, `A`-`Z` 65-90, `0`-`9`
48-57, `_` 95, `-` 45). -/
def isAllowedCp (c : Nat) : Bool :=
  decide (97 ≤ c ∧ c ≤ 122) || decide (65 ≤ c ∧ c ≤ 90) ||
    decide (48 ≤ c ∧ c ≤ 57) || decide (c = 95) || decide (c = 45)

/-- Worker for `re.sub(r"[^a-zA-Z0-9_-]+", "-", s)`: `prevBad` records
whether the previous character belonged to a run already replaced by `-`. -/
def subRunsAux : Bool → List Nat → List Nat
  | _, [] => []
  | prevBad, c :: cs =>
    if isAllowedCp c then c :: subRunsAux false cs
    else if prevBad then subRunsAux true cs
    else 45 :: subRunsAux true cs

/-- Embedding of `re.sub(r"[^a-zA-Z0-9_-]+", "-", s)`: every maximal run of
characters outside the class becomes a single `-` (codepoint 45). -/
def subRuns (s : List Nat) : List Nat := subRunsAux false s

/-- Embedding of Python `str.strip("-")`: drop leading and trailing runs of
`-` (codepoint 45). -/
def stripDash (l : List Nat) : List Nat :=
  ((l.dropWhile fun c => c == 45).reverse.dropWhile fun c => c == 45).reverse

/-- Embedding of `str.lower()` on one codepoint.  In `sanitize_tag` the
lowering runs after the substitution and strip, so its input characters all
lie in the ASCII class `[a-zA-Z0-9_-]`, where Python lowering is exactly
the `A`-`Z` to `a`-`z` shift. -/
def lowerCp (c : Nat) : Nat :=
  if 65 ≤ c ∧ c ≤ 90 then c + 32 else c

/-- Shared cleaning pipeline
`re.sub(r"[^a-zA-Z0-9_-]+", "-", raw).strip("-").lower()`, common to all
three `sanitize_tag` definitions in the repository. -/
def cleanTag (raw : List Nat) : List Nat :=
  (stripDash (subRuns raw)).map lowerCp

/-- Backend `sanitize_tag` (src/backend/main.py lines 55-58): the bare
cleaning pipeline, with no fallback for an empty result.  The copy in
src/scripts/ingest_data.py lines 32-36 is identical. -/
def sanitize_tag (raw : Tag) : Tag := cleanTag raw

/-- Codepoints of the literal `"run-"` opening the strftime fallback
`"run-%Y%m%d-%H%M%S"`. -/
def runFallbackHead : List Nat := [114, 117, 110, 45]

/-- Fetch-script `sanitize_tag` (src/scripts/fetch_data.py lines 34-43):
the same cleaning pipeline, but an empty result falls back to the
timestamp-derived tag `"run-%Y%m%d-%H%M%S"`; `now` stands for the
current-time part of that strftime string. -/
def sanitize_tag_fetch (now : List Nat) (raw : Tag) : Tag :=
  if cleanTag raw = [] then runFallbackHead ++ now else cleanTag raw

/-- A preparation-job status record: the `state` and `message` fields of
the dicts stored in `PREP_STATUS`. -/
structure Status where
  state : String
  message : String
  deriving DecidableEq, Repr

/-- The `PREP_STATUS` map, tag to optional status record. -/
abbrev PrepMap : Type := Tag → Option Status

/-- Store `st` under key `t` (Python `PREP_STATUS[t] = st`). -/
def setStatus (m : PrepMap) (t : Tag) (st : Status) : PrepMap :=
  fun x => if x = t then some st else m x

/-- Status written by `prepare_endpoint` right after spawning the build
thread (src/backend/main.py line 191). -/
def queuedStatus : Status := ⟨"running", "Queued..."⟩

/-- The sentinel status returned by `prepare_status` for a never-triggered
tag (src/backend/main.py line 199). -/
def unknownStatus : Status := ⟨"unknown", "No job found."⟩

/-- Embedding of `prepare_endpoint` (src/backend/main.py lines 181-192).
Returns the updated `PREP_STATUS`, the response payload `(tag, status)`,
and whether a new background build was started. -/
def prepare_endpoint (m : PrepMap) (address : Tag) :
    PrepMap × (Tag × Status) × Bool :=
  let tag := sanitize_tag address
  match m tag with
  | some existing =>
    if existing.state = "running" ∨ existing.state = "done" then
      (m, (tag, existing), false)
    else (setStatus m tag queuedStatus, (tag, queuedStatus), true)
  | none => (setStatus m tag queuedStatus, (tag, queuedStatus), true)

/-- Embedding of `prepare_status` (src/backend/main.py lines 194-200):
pure read with the `unknown` sentinel for an absent record. -/
def prepare_status (m : PrepMap) (tag : Tag) : Tag × Status :=
  let cleaned := sanitize_tag tag
  (cleaned, (m cleaned).getD unknownStatus)

/-- The sequence of status records `run_pipeline` stores into `PREP_STATUS`
(src/backend/main.py lines 75-113), as a function of whether the fetch and
ingest subprocesses exit cleanly, whether the warm-cache
`load_vector_store` call succeeds, and of the diagnostic texts.  The warm
load (line 111) runs INSIDE the `try`, after `"done"` has been stored
(line 108): if it raises — `load_vector_store` deliberately raises
`HTTPException`, an `Exception` subclass, on a missing or corrupt store —
the handler at line 112 overwrites the record with a trailing `"error"`,
so a run can store `running, running, done, error`. -/
def run_pipeline_states (fetch_ok : Bool) (fetch_err : String)
    (ingest_ok : Bool) (ingest_err : String)
    (warm_ok : Bool) (warm_err : String) : List Status :=
  ⟨"running", "Fetching data..."⟩ ::
    (if fetch_ok then
      ⟨"running", "Building embeddings..."⟩ ::
        (if ingest_ok then
          ⟨"done", "Vector DB ready."⟩ ::
            (if warm_ok then [] else [⟨"error", warm_err⟩])
         else [⟨"error", ingest_err⟩])
     else [⟨"error", fetch_err⟩])

/-- Transition allowed between two consecutive stored states of one
pipeline run: a `running` record may be overwritten by anything the
pipeline stores next, and a `done` record only by the trailing `error` of
a failed warm-cache load. -/
def transOk (a b : String) : Bool :=
  (a == "running" && (b == "running" || b == "done" || b == "error")) ||
    (a == "done" && b == "error")

/-- Error classes of `load_vector_store`: HTTP 404 for a missing store
directory, HTTP 500 for a directory that exists but fails to deserialize. -/
inductive LoadError where
  | notFound
  | loadFailed
  deriving DecidableEq, Repr

/-- The `VECTOR_CACHE` map, tag to optional loaded-store handle. -/
abbrev Cache : Type := Tag → Option Nat

/-- Store handle `h` under key `t` (Python `VECTOR_CACHE[t] = h`). -/
def setCache (c : Cache) (t : Tag) (h : Nat) : Cache :=
  fun x => if x = t then some h else c x

/-- Embedding of `load_vector_store` (src/backend/main.py lines 60-73).
`disk` describes the persisted state per tag: `none` when no store
directory exists, `some none` when it exists but
`FAISS.load_local` raises, `some (some h)` when deserialization yields the
handle `h`.  On success the handle is cached before being returned. -/
def load_vector_store (disk : Tag → Option (Option Nat)) (cache : Cache)
    (tag : Tag) : Except LoadError (Nat × Cache) :=
  let cleaned := sanitize_tag tag
  match cache cleaned with
  | some h => Except.ok (h, cache)
  | none =>
    match disk cleaned with
    | none => Except.error LoadError.notFound
    | some none => Except.error LoadError.loadFailed
    | some (some h) => Except.ok (h, setCache cache cleaned h)

/-! ### Concrete sample data used to exercise the theorems -/

/-- Oracle whose wide-net pool differs from its direct pool, to separate
the two retrieval modes on observable output. -/
def latestOracle : List (String × JsonVal) → Int → List Doc := fun _ k =>
  if k = 5000 then
    [⟨"b", some (JsonVal.vInt 3)⟩, ⟨"a", some (JsonVal.vInt 1)⟩]
  else [⟨"b", some (JsonVal.vInt 3)⟩]

/-- Four documents with pairwise-distinct timestamps, in an order unrelated
to chronology (their similarity rank). -/
def poolA : List Doc :=
  [⟨"a", some (JsonVal.vInt 10)⟩, ⟨"d", some (JsonVal.vInt 40)⟩,
   ⟨"c", some (JsonVal.vInt 20)⟩, ⟨"b", some (JsonVal.vInt 30)⟩]

/-- The three most recent documents of `poolA`, newest first. -/
def outA : List Doc :=
  [⟨"d", some (JsonVal.vInt 40)⟩, ⟨"b", some (JsonVal.vInt 30)⟩,
   ⟨"c", some (JsonVal.vInt 20)⟩]

/-- Three documents two of which share a timestamp, to exercise the
stability of the wide-net sort. -/
def poolB : List Doc :=
  [⟨"x", some (JsonVal.vInt 2)⟩, ⟨"y", some (JsonVal.vInt 2)⟩,
   ⟨"z", some (JsonVal.vInt 5)⟩]

/-- `poolB` sorted descending by timestamp: the equal-timestamp documents
`x` and `y` keep their similarity-rank order. -/
def outB : List Doc :=
  [⟨"z", some (JsonVal.vInt 5)⟩, ⟨"x", some (JsonVal.vInt 2)⟩,
   ⟨"y", some (JsonVal.vInt 2)⟩]

/-- A `PREP_STATUS` with an in-flight job for tag `"a"` (codepoint 97). -/
def mapRunning : PrepMap :=
  fun t => if t = [97] then some ⟨"running", "Fetching data..."⟩ else none

/-- A `PREP_STATUS` with a failed job for tag `"b"` (codepoint 98). -/
def mapError : PrepMap :=
  fun t => if t = [98] then some ⟨"error", "fetch_data failed"⟩ else none

/-- An empty `PREP_STATUS`. -/
def mapEmpty : PrepMap := fun _ => none

/-- An empty `VECTOR_CACHE`. -/
def cacheEmpty : Cache := fun _ => none

/-- Persisted state with a loadable store for tag `"a"` (handle 7) and a
present-but-corrupt store for tag `"b"`. -/
def diskAB : Tag → Option (Option Nat) :=
  fun t => if t = [97] then some (some 7)
    else if t = [98] then some none else none

/-! ### Stability, sortedness and permutation facts about `pySorted` -/

theorem filter_orderedInsert_pos {α : Type} (r : α → α → Prop) [DecidableRel r]
    (p : α → Bool) (x : α) (l : List α) (hx : p x = true)
    (h : ∀ y, ¬ r x y → p y = false) :
    (List.orderedInsert r x l).filter p = x :: l.filter p := by
  induction l with
  | nil => simp [List.orderedInsert, hx]
  | cons y ys ih =>
    by_cases hr : r x y
    · simp only [List.orderedInsert, if_pos hr]
      simp [List.filter, hx]
    · simp only [List.orderedInsert, if_neg hr]
      simp [List.filter, h y hr, ih]

theorem filter_orderedInsert_neg {α : Type} (r : α → α → Prop) [DecidableRel r]
    (p : α → Bool) (x : α) (l : List α) (hx : p x = false) :
    (List.orderedInsert r x l).filter p = l.filter p := by
  induction l with
  | nil => simp [List.orderedInsert, hx]
  | cons y ys ih =>
    by_cases hr : r x y
    · simp only [List.orderedInsert, if_pos hr]
      simp [List.filter, hx]
    · simp only [List.orderedInsert, if_neg hr]
      simp [List.filter, ih]

/-- Stability of `insertionSort` phrased through `filter`: a predicate that
can never select an element placed strictly after a selected element
selects the same sublist, in order, before and after sorting. -/
theorem filter_insertionSort_of_key {α : Type} (r : α → α → Prop)
    [DecidableRel r] (p : α → Bool)
    (hstab : ∀ x y, p x = true → ¬ r x y → p y = false) :
    ∀ l : List α, (List.insertionSort r l).filter p = l.filter p := by
  intro l
  induction l with
  | nil => rfl
  | cons x xs ih =>
    simp only [List.insertionSort]
    by_cases hx : p x = true
    · rw [filter_orderedInsert_pos r p x _ hx (fun y hy => hstab x y hx hy), ih]
      simp [List.filter, hx]
    · have hx' : p x = false := by revert hx; cases p x <;> simp
      rw [filter_orderedInsert_neg r p x _ hx', ih]
      simp [List.filter, hx']

/-- Python's `sorted` is stable: elements with the same key keep their
relative order, for either value of `reverse`. -/
theorem filter_pySorted {α : Type} (key : α → Int) (rev : Bool) (t : Int)
    (l : List α) :
    (pySorted key rev l).filter (fun a => decide (key a = t)) =
      l.filter (fun a => decide (key a = t)) := by
  unfold pySorted
  cases rev with
  | false =>
    simp only [Bool.false_eq_true, if_false]
    refine filter_insertionSort_of_key _ _ ?_ l
    intro x y hx hr
    simp only [decide_eq_true_eq] at hx
    simp only [decide_eq_false_iff_not]
    omega
  | true =>
    simp only [if_true]
    refine filter_insertionSort_of_key _ _ ?_ l
    intro x y hx hr
    simp only [decide_eq_true_eq] at hx
    simp only [decide_eq_false_iff_not]
    omega

theorem pySorted_perm {α : Type} (key : α → Int) (rev : Bool) (l : List α) :
    (pySorted key rev l).Perm l := by
  unfold pySorted
  cases rev with
  | false => simpa using List.perm_insertionSort _ l
  | true => simpa using List.perm_insertionSort _ l

theorem pySorted_sorted_desc {α : Type} (key : α → Int) (l : List α) :
    List.Sorted (fun a b => key b ≤ key a) (pySorted key true l) := by
  unfold pySorted
  simp only [if_true]
  haveI : IsTotal α fun a b => key b ≤ key a := ⟨fun a b => le_total (key b) (key a)⟩
  haveI : IsTrans α fun a b => key b ≤ key a := ⟨fun _ _ _ hab hbc => le_trans hbc hab⟩
  exact List.sorted_insertionSort _ l

theorem pySorted_sorted_asc {α : Type} (key : α → Int) (l : List α) :
    List.Sorted (fun a b => key a ≤ key b) (pySorted key false l) := by
  unfold pySorted
  simp only [Bool.false_eq_true, if_false]
  haveI : IsTotal α fun a b => key a ≤ key b := ⟨fun a b => le_total (key a) (key b)⟩
  haveI : IsTrans α fun a b => key a ≤ key b := ⟨fun _ _ _ hab hbc => le_trans hab hbc⟩
  exact List.sorted_insertionSort _ l

/-- In a list sorted by weakly decreasing key with pairwise-distinct keys,
every element beyond position `n` has a strictly smaller key than every
element among the first `n`. -/
theorem take_dominates_drop {α : Type} (key : α → Int) (l : List α) (n : Nat)
    (hs : List.Sorted (fun a b => key b ≤ key a) l)
    (hnd : (l.map key).Nodup) {d o : α}
    (hd : d ∈ l.drop n) (ho : o ∈ l.take n) : key d < key o := by
  have hsplit : l.take n ++ l.drop n = l := List.take_append_drop n l
  have hs2 : List.Sorted (fun a b => key b ≤ key a) (l.take n ++ l.drop n) := by
    rwa [hsplit]
  have hle : key d ≤ key o :=
    ((List.pairwise_append.mp hs2).2.2) o ho d hd
  have hnd2 : ((l.take n ++ l.drop n).map key).Nodup := by rwa [hsplit]
  rw [List.map_append] at hnd2
  have hdisj := (List.nodup_append.mp hnd2).2.2
  have hne : key d ≠ key o := by
    intro he
    exact hdisj (List.mem_map_of_mem key ho) (he ▸ List.mem_map_of_mem key hd)
  exact lt_of_le_of_ne hle hne

/-- A weakly sorted list with pairwise-distinct keys is strictly sorted. -/
theorem sorted_strict_of_nodup {α : Type} (key : α → Int) (l : List α)
    (hs : List.Sorted (fun a b => key b ≤ key a) l)
    (hnd : (l.map key).Nodup) :
    List.Pairwise (fun a b => key b < key a) l := by
  have hnd' : List.Pairwise (fun a b => key a ≠ key b) l :=
    (List.pairwise_map).mp hnd
  exact (hs.and hnd').imp fun h => lt_of_le_of_ne h.1 (Ne.symm h.2)

/-- Every Python slice `l[:n]` is a `take`. -/
theorem pySliceTo_eq_take {α : Type} (n : Int) (l : List α) :
    ∃ m : Nat, pySliceTo n l = l.take m := by
  unfold pySliceTo
  by_cases h : 0 ≤ n
  · exact ⟨n.toNat, by rw [if_pos h]⟩
  · exact ⟨l.length - n.natAbs, by rw [if_neg h]⟩

/-! ### Facts about the tag-normalization pipeline -/

theorem head?_dropWhile {α : Type} (p : α → Bool) (l : List α) :
    ∀ a, (l.dropWhile p).head? = some a → p a = false := by
  induction l with
  | nil => intro a h; simp [List.dropWhile] at h
  | cons x xs ih =>
    intro a h
    by_cases hx : p x = true
    · rw [List.dropWhile_cons, if_pos hx] at h
      exact ih a h
    · rw [List.dropWhile_cons, if_neg hx] at h
      simp only [List.head?_cons, Option.some.injEq] at h
      subst h
      simpa using hx

theorem dropWhile_eq_self_of_head {α : Type} (p : α → Bool) (l : List α)
    (h : ∀ a, l.head? = some a → p a = false) : l.dropWhile p = l := by
  cases l with
  | nil => rfl
  | cons x xs => rw [List.dropWhile_cons, if_neg (by simp [h x rfl])]

theorem dropWhile_idem {α : Type} (p : α → Bool) (l : List α) :
    (l.dropWhile p).dropWhile p = l.dropWhile p :=
  dropWhile_eq_self_of_head p _ (head?_dropWhile p l)

theorem getLast?_of_suffix {α : Type} {l₁ l₂ : List α} (h : l₁ <:+ l₂)
    (hne : l₁ ≠ []) : l₂.getLast? = l₁.getLast? := by
  obtain ⟨t, rfl⟩ := h
  rw [List.getLast?_append]
  cases hg : l₁.getLast? with
  | none => exact absurd (List.getLast?_eq_none_iff.mp hg) hne
  | some a => simp

theorem head?_stripDash (l : List Nat) :
    ∀ a, (stripDash l).head? = some a → (a == 45) = false := by
  intro a h
  unfold stripDash at h
  rw [List.head?_reverse] at h
  set A := l.dropWhile fun c => c == 45 with hA
  set B := A.reverse.dropWhile fun c => c == 45 with hB
  have hBne : B ≠ [] := by
    intro he
    rw [he] at h
    simp at h
  have : A.reverse.getLast? = B.getLast? :=
    getLast?_of_suffix (List.dropWhile_suffix _) hBne
  rw [h, List.getLast?_reverse] at this
  rw [hA] at this
  exact head?_dropWhile _ l a this

theorem dropWhile_stripDash (l : List Nat) :
    (stripDash l).dropWhile (fun c => c == 45) = stripDash l :=
  dropWhile_eq_self_of_head _ _ (head?_stripDash l)

theorem reverse_stripDash_dropWhile (l : List Nat) :
    (stripDash l).reverse.dropWhile (fun c => c == 45) = (stripDash l).reverse := by
  unfold stripDash
  rw [List.reverse_reverse]
  exact dropWhile_idem _ _

theorem stripDash_eq_self (l : List Nat)
    (h1 : l.dropWhile (fun c => c == 45) = l)
    (h2 : l.reverse.dropWhile (fun c => c == 45) = l.reverse) :
    stripDash l = l := by
  unfold stripDash
  rw [h1, h2, List.reverse_reverse]

theorem mem_subRunsAux : ∀ (b : Bool) (s : List Nat) (c : Nat),
    c ∈ subRunsAux b s → isAllowedCp c = true := by
  intro b s
  induction s generalizing b with
  | nil => intro c h; simp [subRunsAux] at h
  | cons x xs ih =>
    intro c h
    by_cases hx : isAllowedCp x = true
    · rw [subRunsAux, if_pos hx] at h
      rcases List.mem_cons.mp h with h | h
      · exact h ▸ hx
      · exact ih false c h
    · rw [subRunsAux, if_neg hx] at h
      cases b with
      | true => exact ih true c (by simpa using h)
      | false =>
        simp only [Bool.false_eq_true, if_false] at h
        rcases List.mem_cons.mp h with h | h
        · subst h; decide
        · exact ih true c h

theorem mem_stripDash {l : List Nat} {c : Nat} (h : c ∈ stripDash l) : c ∈ l := by
  unfold stripDash at h
  rw [List.mem_reverse] at h
  have h2 := (List.dropWhile_sublist (l := (l.dropWhile fun c => c == 45).reverse)
    (fun c => c == 45)).mem h
  rw [List.mem_reverse] at h2
  exact (List.dropWhile_sublist (fun c => c == 45)).mem h2

theorem lower_allowed {c : Nat} (h : isAllowedCp c = true) :
    isAllowedCp (lowerCp c) = true := by
  simp only [isAllowedCp, Bool.or_eq_true, decide_eq_true_eq] at h ⊢
  unfold lowerCp
  split_ifs with hc <;> omega

theorem lower_not_upper (c : Nat) : ¬(65 ≤ lowerCp c ∧ lowerCp c ≤ 90) := by
  unfold lowerCp
  split_ifs with hc <;> omega

theorem lower_idem (c : Nat) : lowerCp (lowerCp c) = lowerCp c := by
  unfold lowerCp
  split_ifs with h1 h2 <;> omega

theorem lower_dash_iff (c : Nat) : ((lowerCp c) == 45) = (c == 45) := by
  unfold lowerCp
  split_ifs with _hc
  · have h1 : (c + 32 == 45) = false := by simp; omega
    have h2 : (c == 45) = false := by simp; omega
    rw [h1, h2]
  · rfl

theorem subRunsAux_of_allowed (b : Bool) (l : List Nat)
    (h : ∀ c ∈ l, isAllowedCp c = true) : subRunsAux b l = l := by
  induction l generalizing b with
  | nil => rfl
  | cons x xs ih =>
    rw [subRunsAux, if_pos (h x (List.mem_cons_self x xs))]
    rw [ih false fun c hc => h c (List.mem_cons_of_mem x hc)]

theorem mem_cleanTag_allowed {s : List Nat} {c : Nat} (h : c ∈ cleanTag s) :
    isAllowedCp c = true := by
  unfold cleanTag at h
  rcases List.mem_map.mp h with ⟨c', hc', rfl⟩
  exact lower_allowed (mem_subRunsAux false s c' (by
    simpa [subRuns] using mem_stripDash hc'))

theorem cleanTag_idem (s : List Nat) : cleanTag (cleanTag s) = cleanTag s := by
  have hall : ∀ c ∈ cleanTag s, isAllowedCp c = true := fun c h =>
    mem_cleanTag_allowed h
  have hsub : subRuns (cleanTag s) = cleanTag s :=
    subRunsAux_of_allowed false _ hall
  have hdw : (cleanTag s).dropWhile (fun c => c == 45) = cleanTag s := by
    unfold cleanTag
    rw [List.dropWhile_map]
    have hfun : ((fun c => c == 45) ∘ lowerCp) = fun c : Nat => c == 45 := by
      funext c; exact lower_dash_iff c
    rw [hfun, dropWhile_stripDash]
  have hdwr : (cleanTag s).reverse.dropWhile (fun c => c == 45) =
      (cleanTag s).reverse := by
    unfold cleanTag
    rw [← List.map_reverse, List.dropWhile_map]
    have hfun : ((fun c => c == 45) ∘ lowerCp) = fun c : Nat => c == 45 := by
      funext c; exact lower_dash_iff c
    rw [hfun, reverse_stripDash_dropWhile, List.map_reverse]
  have hstrip : stripDash (cleanTag s) = cleanTag s :=
    stripDash_eq_self _ hdw hdwr
  have hmap : (cleanTag s).map lowerCp = cleanTag s := by
    unfold cleanTag
    rw [List.map_map]
    have hfun : (lowerCp ∘ lowerCp) = lowerCp := by
      funext c; exact lower_idem c
    rw [hfun]
  conv_lhs => rw [cleanTag, hsub, hstrip]
  exact hmap

theorem subRunsAux_true_of_bad (rest : List Nat) :
    ∀ cs : List Nat, (∀ c ∈ cs, isAllowedCp c = false) →
      subRunsAux true (cs ++ rest) = subRunsAux true rest := by
  intro cs
  induction cs with
  | nil => intro _; rfl
  | cons x xs ih =>
    intro h
    rw [List.cons_append, subRunsAux,
      if_neg (by simp [h x (List.mem_cons_self x xs)]), if_pos rfl]
    exact ih fun c hc => h c (List.mem_cons_of_mem x hc)

theorem subRunsAux_true_eq_false (rest : List Nat)
    (h : ∀ a, rest.head? = some a → isAllowedCp a = true) :
    subRunsAux true rest = subRunsAux false rest := by
  cases rest with
  | nil => rfl
  | cons x xs => rw [subRunsAux, subRunsAux, if_pos (h x rfl), if_pos (h x rfl)]

theorem subRuns_bad_run (run rest : List Nat) (hne : run ≠ [])
    (hbad : ∀ c ∈ run, isAllowedCp c = false)
    (hrest : ∀ a, rest.head? = some a → isAllowedCp a = true) :
    subRuns (run ++ rest) = 45 :: subRuns rest := by
  cases run with
  | nil => exact absurd rfl hne
  | cons x xs =>
    unfold subRuns
    rw [List.cons_append, subRunsAux,
      if_neg (by simp [hbad x (List.mem_cons_self x xs)]),
      if_neg (by simp)]
    rw [subRunsAux_true_of_bad rest xs
      (fun c hc => hbad c (List.mem_cons_of_mem x hc))]
    rw [subRunsAux_true_eq_false rest hrest]

/-! ### Claim theorems -/

/-- C3 counterexample: an extracted integer limit of `0` is kept as `0`,
which is not in the claimed range `[1, 20]` — `chat_endpoint` caps the
limit at 20 but never raises it to 1. -/
theorem limit_zero_not_clamped :
    resolveLimit (some (JsonVal.vInt 0)) = 0 ∧
      ¬(1 ≤ resolveLimit (some (JsonVal.vInt 0))) := by
  decide

/-- C3 (amended): the resolved limit is always at most 20; an absent,
null, or non-integer extracted limit resolves to 5; an extracted integer
is capped at 20 but under-range integers (such as 0) pass through
unchanged; and the planner's limit is exactly this resolution. -/
theorem limit_resolution (v : Option JsonVal) (n : Int) (s : String)
    (b : Bool) (r : RawIntent) :
    resolveLimit v ≤ 20 ∧
    resolveLimit none = 5 ∧
    resolveLimit (some (JsonVal.vStr s)) = 5 ∧
    resolveLimit (some JsonVal.vNull) = 5 ∧
    resolveLimit (some (JsonVal.vBool b)) = (if b then 1 else 0) ∧
    resolveLimit (some (JsonVal.vInt n)) = (if n > 20 then 20 else n) ∧
    (mkPlan r).limit = resolveLimit r.limit := by
  refine ⟨?_, rfl, rfl, rfl, ?_, ?_, rfl⟩
  · unfold resolveLimit
    rcases v with _ | x
    · simp
    · rcases x with m | s' | b' | _ <;>
        simp [isInstInt, pyIntOfInst] <;> split_ifs <;> omega
  · unfold resolveLimit
    rcases b <;> simp [isInstInt, pyIntOfInst]
  · unfold resolveLimit
    simp [isInstInt, pyIntOfInst]

/-- C4 counterexample: an extracted sort value `"latest"` is truthy, so the
executor enters wide-net mode (pool of 5000, ascending timestamp sort,
slice), and its output differs from the direct-mode output that an absent
sort produces on the same index. -/
theorem sort_latest_not_direct :
    retrieve latestOracle ⟨[], some (JsonVal.vStr "latest"), 1⟩ =
      some [⟨"a", some (JsonVal.vInt 1)⟩] ∧
    retrieve latestOracle ⟨[], none, 1⟩ =
      some [⟨"b", some (JsonVal.vInt 3)⟩] ∧
    (some [(⟨"a", some (JsonVal.vInt 1)⟩ : Doc)] ≠
      some [(⟨"b", some (JsonVal.vInt 3)⟩ : Doc)]) := by
  refine ⟨rfl, rfl, by decide⟩

/-- C4 (amended): a falsy extracted sort value (absent, null, empty
string, false, 0) selects direct mode — the executor returns the
similarity result for exactly `limit` neighbors unchanged; any truthy sort
value selects wide-net mode over a pool of 5000, sorted descending when
the value is exactly the string "desc" and ascending otherwise (so
`"latest"` behaves like `"asc"`, not like an absent sort). -/
theorem sort_value_dispatch (search : List (String × JsonVal) → Int → List Doc)
    (fs : List (String × JsonVal)) (lim : Int) (sv : Option JsonVal) :
    (truthy sv = false → retrieve search ⟨fs, sv, lim⟩ = some (search fs lim)) ∧
    (truthy sv = true → sv ≠ some (JsonVal.vStr "desc") →
      retrieve search ⟨fs, sv, lim⟩ =
        (sortDocs false (search fs 5000)).map fun l => pySliceTo lim l) ∧
    (truthy sv = true → sv = some (JsonVal.vStr "desc") →
      retrieve search ⟨fs, sv, lim⟩ =
        (sortDocs true (search fs 5000)).map fun l => pySliceTo lim l) ∧
    truthy (some (JsonVal.vStr "latest")) = true := by
  refine ⟨?_, ?_, ?_, rfl⟩
  · intro hf
    simp [retrieve, k_val, hf]
  · intro ht hne
    simp [retrieve, k_val, ht, hne]
  · intro ht he
    subst he
    simp [retrieve, k_val, ht]

/-- C4 witness: the dispatch at concrete sort values — absent sort gives
direct mode, `"latest"` gives ascending wide-net, `"desc"` gives
descending wide-net, all over `latestOracle`. -/
theorem sort_value_dispatch_witness :
    retrieve latestOracle ⟨[], none, 1⟩ = some (latestOracle [] 1) ∧
    retrieve latestOracle ⟨[], some (JsonVal.vStr "latest"), 1⟩ =
      (sortDocs false (latestOracle [] 5000)).map (fun l => pySliceTo 1 l) ∧
    retrieve latestOracle ⟨[], some (JsonVal.vStr "desc"), 1⟩ =
      (sortDocs true (latestOracle [] 5000)).map (fun l => pySliceTo 1 l) :=
  ⟨(sort_value_dispatch latestOracle [] 1 none).1 rfl,
   (sort_value_dispatch latestOracle [] 1 (some (JsonVal.vStr "latest"))).2.1
     (by decide) (by decide),
   (sort_value_dispatch latestOracle [] 1 (some (JsonVal.vStr "desc"))).2.2.1
     (by decide) rfl⟩

/-- C8 counterexample: an extraction call that does not raise but RETURNS
malformed output fails the query — a dict whose `"filters"` value is JSON
null, and a non-dict result, both raise `AttributeError` at line 220,
outside the inner `try/except`, and become an HTTP 500 instead of the
default plan. -/
theorem malformed_intent_fails :
    chatPlanE (Except.ok (PyIntent.obj (some (FiltersVal.fBad JsonVal.vNull))
      none none)) = Except.error () ∧
    chatPlanE (Except.ok (PyIntent.nonObj (JsonVal.vStr "plain text"))) =
      Except.error () ∧
    ¬ ∃ p : Plan, chatPlanE (Except.ok (PyIntent.obj
      (some (FiltersVal.fBad JsonVal.vNull)) none none)) = Except.ok p := by
  refine ⟨rfl, rfl, ?_⟩
  rintro ⟨p, hp⟩
  simp [chatPlanE] at hp

/-- C8 (amended): only a RAISING intent-extraction call is recovered —
the inner `try/except` substitutes the empty dict and the query proceeds
with the default plan (no filters, no sort, limit 5) in direct mode with
a pool of 5; a call that returns a JSON object with a dict (or absent)
`"filters"` value also proceeds, through the normal post-processing; but
a returned non-dict, or a dict whose `"filters"` value is not a dict,
raises outside that `try` and fails the whole query with an HTTP 500. -/
theorem intent_outcome_dispatch
    (search : List (String × JsonVal) → Int → List Doc) (e : Unit)
    (fl : List (String × JsonVal)) (sort limit : Option JsonVal)
    (v : JsonVal) :
    chatPlanE (Except.error e) = Except.ok ⟨[], none, 5⟩ ∧
    retrieve search ⟨[], none, 5⟩ = some (search [] 5) ∧
    chatPlanE (Except.ok (PyIntent.obj (some (FiltersVal.fObj fl)) sort limit)) =
      Except.ok ⟨cleanFilters fl, sort, resolveLimit limit⟩ ∧
    chatPlanE (Except.ok (PyIntent.obj none sort limit)) =
      Except.ok ⟨[], sort, resolveLimit limit⟩ ∧
    chatPlanE (Except.ok (PyIntent.nonObj v)) = Except.error () ∧
    chatPlanE (Except.ok (PyIntent.obj (some (FiltersVal.fBad v)) sort limit)) =
      Except.error () :=
  ⟨rfl, rfl, rfl, rfl, rfl, rfl⟩

/-- C7 counterexample: a document whose `timestamp` metadata is present
but not integer-coercible (JSON null) makes the sort-key computation
raise — the key is `none`, not `0` — and a wide-net retrieval over a pool
containing it fails instead of treating the document as oldest. -/
theorem null_timestamp_fails :
    sortKey ⟨"n", some JsonVal.vNull⟩ = none ∧
    sortKey ⟨"n", some JsonVal.vNull⟩ ≠ some 0 ∧
    retrieve (fun _ _ => [⟨"n", some JsonVal.vNull⟩])
      ⟨[], some (JsonVal.vStr "desc"), 5⟩ = none :=
  ⟨rfl, by decide, rfl⟩

/-- C7 (amended): the sort key treats an absent `timestamp` metadata entry
as 0 and passes integer values through, but a present non-coercible value
(e.g. null) makes the key computation fail, and the whole sort-mode
retrieval fails with it rather than treating the document as oldest. -/
theorem sort_key_resolution (d : Doc) (n : Int) (pool : List Doc)
    (fs : List (String × JsonVal)) (lim : Int) :
    (d.timestamp = none → sortKey d = some 0) ∧
    (d.timestamp = some (JsonVal.vInt n) → sortKey d = some n) ∧
    (d.timestamp = some JsonVal.vNull → sortKey d = none) ∧
    (d ∈ pool → d.timestamp = some JsonVal.vNull →
      retrieve (fun _ _ => pool) ⟨fs, some (JsonVal.vStr "desc"), lim⟩ = none) := by
  refine ⟨?_, ?_, ?_, ?_⟩
  · intro h; simp [sortKey, h]
  · intro h; simp [sortKey, h, toPyInt]
  · intro h; simp [sortKey, h, toPyInt]
  · intro hmem hnull
    have hall : (pool.all fun d => (sortKey d).isSome) = false := by
      rw [List.all_eq_false]
      exact ⟨d, hmem, by simp [sortKey, hnull, toPyInt]⟩
    have htr : truthy (some (JsonVal.vStr "desc")) = true := by decide
    simp [retrieve, k_val, sortDocs, hall, htr]

/-- C7 witness: the amended behaviors at concrete documents. -/
theorem sort_key_resolution_witness :
    sortKey ⟨"m", none⟩ = some 0 ∧
    sortKey ⟨"k", some (JsonVal.vInt 7)⟩ = some 7 ∧
    sortKey ⟨"n", some JsonVal.vNull⟩ = none ∧
    retrieve (fun _ _ => [⟨"n", some JsonVal.vNull⟩])
      ⟨[], some (JsonVal.vStr "desc"), 5⟩ = none :=
  ⟨(sort_key_resolution ⟨"m", none⟩ 0 [] [] 5).1 rfl,
   (sort_key_resolution ⟨"k", some (JsonVal.vInt 7)⟩ 7 [] [] 5).2.1 rfl,
   (sort_key_resolution ⟨"n", some JsonVal.vNull⟩ 0 [] [] 5).2.2.1 rfl,
   (sort_key_resolution ⟨"n", some JsonVal.vNull⟩ 0
      [⟨"n", some JsonVal.vNull⟩] [] 5).2.2.2 (List.mem_singleton.mpr rfl) rfl⟩

/-- C6 counterexample: the backend `sanitize_tag` (the one used by the
query path and the job endpoints) has no fallback — an input of three `!`
characters (codepoint 33) normalizes to the empty string. -/
theorem backend_sanitize_empty : sanitize_tag [33, 33, 33] = ([] : List Nat) := by
  decide

/-- C6 (amended): the shared cleaning pipeline is deterministic and
idempotent, keeps exactly the characters of `[a-zA-Z0-9_-]` (lower-cased,
with every run of other characters collapsed to a single `-` and leading
and trailing `-` trimmed); the fetch-script variant alone falls back to a
non-empty timestamp-derived tag when cleaning yields the empty string,
while the backend variant returns the empty string in that case. -/
theorem tag_normalization (s raw : Tag) (now : List Nat)
    (run rest : List Nat) (c : Nat) :
    (sanitize_tag (sanitize_tag s) = sanitize_tag s) ∧
    (isAllowedCp c = true → subRuns (c :: rest) = c :: subRuns rest) ∧
    (run ≠ [] → (∀ x ∈ run, isAllowedCp x = false) →
      (∀ a, rest.head? = some a → isAllowedCp a = true) →
      subRuns (run ++ rest) = 45 :: subRuns rest) ∧
    (∀ x ∈ sanitize_tag s, isAllowedCp x = true ∧ ¬(65 ≤ x ∧ x ≤ 90)) ∧
    ((sanitize_tag s).head? ≠ some 45 ∧ (sanitize_tag s).getLast? ≠ some 45) ∧
    (sanitize_tag_fetch now raw ≠ [] ∧
      (cleanTag raw ≠ [] → sanitize_tag_fetch now raw = sanitize_tag raw)) := by
  refine ⟨cleanTag_idem s, ?_, subRuns_bad_run run rest, ?_, ⟨?_, ?_⟩, ?_, ?_⟩
  · intro h
    unfold subRuns
    rw [subRunsAux, if_pos h]
  · intro x hx
    refine ⟨mem_cleanTag_allowed hx, ?_⟩
    unfold sanitize_tag cleanTag at hx
    rcases List.mem_map.mp hx with ⟨c', _, rfl⟩
    exact lower_not_upper c'
  · intro h
    unfold sanitize_tag cleanTag at h
    rw [List.head?_map] at h
    rcases Option.map_eq_some'.mp h with ⟨a, ha, hla⟩
    have h45 := head?_stripDash (subRuns s) a ha
    rw [← lower_dash_iff, hla] at h45
    simp at h45
  · intro h
    unfold sanitize_tag cleanTag at h
    rw [List.getLast?_map] at h
    rcases Option.map_eq_some'.mp h with ⟨a, ha, hla⟩
    unfold stripDash at ha
    rw [List.getLast?_reverse] at ha
    have h45 : (a == 45) = false := head?_dropWhile (fun c => c == 45) _ a ha
    rw [← lower_dash_iff, hla] at h45
    simp at h45
  · unfold sanitize_tag_fetch
    split_ifs with h
    · simp [runFallbackHead]
    · exact h
  · intro h
    unfold sanitize_tag_fetch
    rw [if_neg h]
    rfl

/-- C6 witness: the amended behaviors at concrete inputs — `"He!!a"`
cleans idempotently, an allowed character is kept, the run `"!!"` before
`"a"` collapses to one dash, and the empty-cleaning input `"!!!"` gets the
non-empty fetch fallback. -/
theorem tag_normalization_witness :
    subRuns (97 :: [98]) = 97 :: subRuns [98] ∧
    subRuns ([33, 33] ++ [97]) = 45 :: subRuns [97] ∧
    sanitize_tag_fetch [50, 48] [33, 33, 33] ≠ [] ∧
    sanitize_tag_fetch [50, 48] [72, 101] = sanitize_tag [72, 101] :=
  ⟨(tag_normalization [] [] [] [] [98] 97).2.1 (by decide),
   (tag_normalization [] [] [] [33, 33] [97] 0).2.2.1 (by decide) (by decide)
     (by decide),
   (tag_normalization [] [33, 33, 33] [50, 48] [] [] 0).2.2.2.2.2.1,
   (tag_normalization [] [72, 101] [50, 48] [] [] 0).2.2.2.2.2.2 (by decide)⟩

/-- C2: triggering preparation while the stored job for the tag is
in-flight (`running`) or `done` returns that record unchanged and starts
no build; only when no record exists, or the record is in the `error`
state, does the trigger store a fresh queued record and start a build. -/
theorem prepare_trigger (m : PrepMap) (address : Tag) (ex : Status) :
    (m (sanitize_tag address) = some ex →
      ex.state = "running" ∨ ex.state = "done" →
      prepare_endpoint m address = (m, (sanitize_tag address, ex), false)) ∧
    (m (sanitize_tag address) = none →
      prepare_endpoint m address =
        (setStatus m (sanitize_tag address) queuedStatus,
          (sanitize_tag address, queuedStatus), true)) ∧
    (m (sanitize_tag address) = some ex → ex.state = "error" →
      prepare_endpoint m address =
        (setStatus m (sanitize_tag address) queuedStatus,
          (sanitize_tag address, queuedStatus), true)) := by
  refine ⟨?_, ?_, ?_⟩
  · intro h hs
    simp only [prepare_endpoint, h]
    rw [if_pos hs]
  · intro h
    simp only [prepare_endpoint, h]
  · intro h hs
    simp only [prepare_endpoint, h]
    rw [if_neg (by rw [hs]; decide)]

/-- C2 witness: a running job is returned unchanged with no new build; an
absent record and an errored record each cause a fresh queued record and a
new build. -/
theorem prepare_trigger_witness :
    prepare_endpoint mapRunning [97] =
      (mapRunning, ([97], ⟨"running", "Fetching data..."⟩), false) ∧
    prepare_endpoint mapEmpty [99] =
      (setStatus mapEmpty [99] queuedStatus, ([99], queuedStatus), true) ∧
    prepare_endpoint mapError [98] =
      (setStatus mapError [98] queuedStatus, ([98], queuedStatus), true) :=
  ⟨(prepare_trigger mapRunning [97] ⟨"running", "Fetching data..."⟩).1
      (by decide) (by decide),
   (prepare_trigger mapEmpty [99] ⟨"", ""⟩).2.1 (by decide),
   (prepare_trigger mapError [98] ⟨"error", "fetch_data failed"⟩).2.2
      (by decide) (by decide)⟩

/-- C5: a cache miss with no persisted storage for the (normalized) tag
fails with the `notFound` error, a cache miss whose storage exists but
fails to deserialize fails with the distinct `loadFailed` error, and a
successful load caches the handle so that every later lookup for the tag
is answered from the cache — independently of the disk state, i.e. with no
further I/O. -/
theorem index_cache_load (disk : Tag → Option (Option Nat)) (cache : Cache)
    (tag : Tag) (h : Nat) :
    (cache (sanitize_tag tag) = none → disk (sanitize_tag tag) = none →
      load_vector_store disk cache tag = Except.error LoadError.notFound) ∧
    (cache (sanitize_tag tag) = none → disk (sanitize_tag tag) = some none →
      load_vector_store disk cache tag = Except.error LoadError.loadFailed) ∧
    (cache (sanitize_tag tag) = none →
      disk (sanitize_tag tag) = some (some h) →
      load_vector_store disk cache tag =
        Except.ok (h, setCache cache (sanitize_tag tag) h) ∧
      ∀ disk2 : Tag → Option (Option Nat),
        load_vector_store disk2 (setCache cache (sanitize_tag tag) h) tag =
          Except.ok (h, setCache cache (sanitize_tag tag) h)) ∧
    (cache (sanitize_tag tag) = some h →
      load_vector_store disk cache tag = Except.ok (h, cache)) ∧
    LoadError.notFound ≠ LoadError.loadFailed := by
  refine ⟨?_, ?_, ?_, ?_, by decide⟩
  · intro hc hd
    simp only [load_vector_store, hc, hd]
  · intro hc hd
    simp only [load_vector_store, hc, hd]
  · intro hc hd
    refine ⟨by simp only [load_vector_store, hc, hd], ?_⟩
    intro disk2
    simp [load_vector_store, setCache]
  · intro hc
    simp only [load_vector_store, hc]

/-- C5 witness: the three outcomes at concrete tags — tag `"c"` has no
storage (404), tag `"b"` has corrupt storage (500), tag `"a"` loads handle
7, is cached, and the follow-up lookup succeeds even with all storage
gone. -/
theorem index_cache_load_witness :
    load_vector_store diskAB cacheEmpty [99] = Except.error LoadError.notFound ∧
    load_vector_store diskAB cacheEmpty [98] = Except.error LoadError.loadFailed ∧
    load_vector_store diskAB cacheEmpty [97] =
      Except.ok (7, setCache cacheEmpty [97] 7) ∧
    load_vector_store (fun _ => none) (setCache cacheEmpty [97] 7) [97] =
      Except.ok (7, setCache cacheEmpty [97] 7) :=
  ⟨(index_cache_load diskAB cacheEmpty [99] 0).1 (by decide) (by decide),
   (index_cache_load diskAB cacheEmpty [98] 0).2.1 (by decide) (by decide),
   ((index_cache_load diskAB cacheEmpty [97] 7).2.2.1 (by decide) (by decide)).1,
   ((index_cache_load diskAB cacheEmpty [97] 7).2.2.1 (by decide) (by decide)).2
     (fun _ => none)⟩

/-- C9 counterexample: the pipeline's very first stored state is the
string `"running"`, which is not one of the five states the claim allows
(`queued`, `fetching`, `embedding`, `done`, `error`) — the source encodes
the fetch and embed phases in the `message` field, not in `state`. -/
theorem pipeline_running_state :
    (run_pipeline_states true "x" true "y" true "z").head? =
      some ⟨"running", "Fetching data..."⟩ ∧
    "running" ∉ (["queued", "fetching", "embedding", "done", "error"] :
      List String) :=
  ⟨rfl, by decide⟩

/-- C9 (amended): every state stored by the trigger endpoint or the
pipeline is one of `running`, `done`, `error`; a run starts with a
`running` record, ends in `done` or `error`, and its consecutive stored
states follow `running → {running, done, error}` and `done → error` — the
`done → error` step occurs when the warm-cache load after a successful
build raises, so `done` is not terminal within a run; polling returns the
stored record, or the `unknown` sentinel for a never-triggered tag. -/
theorem prep_state_machine (fo : Bool) (fe : String) (io : Bool)
    (ie : String) (wo : Bool) (we : String) (st : Status) (m : PrepMap)
    (t : Tag) :
    (st ∈ run_pipeline_states fo fe io ie wo we →
      st.state = "running" ∨ st.state = "done" ∨ st.state = "error") ∧
    (run_pipeline_states fo fe io ie wo we).head? =
      some ⟨"running", "Fetching data..."⟩ ∧
    ((run_pipeline_states fo fe io ie wo we).getLast? = some st →
      st.state = "done" ∨ st.state = "error") ∧
    List.Chain' (fun a b => transOk a.state b.state = true)
      (run_pipeline_states fo fe io ie wo we) ∧
    (fo = true → io = true → wo = false →
      (run_pipeline_states fo fe io ie wo we).map Status.state =
        ["running", "running", "done", "error"]) ∧
    queuedStatus.state = "running" ∧
    prepare_status m t = (sanitize_tag t, (m (sanitize_tag t)).getD unknownStatus) ∧
    unknownStatus.state = "unknown" := by
  refine ⟨?_, ?_, ?_, ?_, ?_, rfl, rfl, rfl⟩
  · intro h
    cases fo <;> cases io <;> cases wo <;>
      simp only [run_pipeline_states, Bool.false_eq_true, if_false, if_true,
        List.mem_cons, List.mem_singleton, List.not_mem_nil, or_false] at h <;>
      rcases h with rfl | rfl | rfl | rfl <;> simp
  · cases fo <;> cases io <;> cases wo <;> rfl
  · intro h
    cases fo <;> cases io <;> cases wo <;>
      simp only [run_pipeline_states, Bool.false_eq_true, if_false, if_true,
        List.getLast?_cons, List.getLast?_singleton, Option.some.injEq] at h <;>
      subst h <;> simp
  · cases fo <;> cases io <;> cases wo <;>
      simp [run_pipeline_states, transOk, List.chain'_cons]
  · intro h1 h2 h3
    subst h1; subst h2; subst h3
    rfl

/-- C9 witness: the amended behaviors at concrete runs — the terminal
state of a fully successful run, the terminal state of a failed fetch,
the stored sequence of a run whose warm-cache load fails after `done`,
and polling an untriggered tag. -/
theorem prep_state_machine_witness :
    (("done" : String) = "running" ∨ ("done" : String) = "done" ∨
      ("done" : String) = "error") ∧
    (("error" : String) = "done" ∨ ("error" : String) = "error") ∧
    (run_pipeline_states true "x" true "y" false "load failed").map
        Status.state = ["running", "running", "done", "error"] ∧
    prepare_status mapEmpty [97] =
      ([97], (mapEmpty [97]).getD unknownStatus) :=
  ⟨(prep_state_machine true "x" true "y" true "z"
      ⟨"done", "Vector DB ready."⟩ mapEmpty [97]).1 (by decide),
   (prep_state_machine false "boom" true "y" true "z"
      ⟨"error", "boom"⟩ mapEmpty [97]).2.2.1 (by decide),
   (prep_state_machine true "x" true "y" false "load failed"
      ⟨"", ""⟩ mapEmpty [97]).2.2.2.2.1 rfl rfl rfl,
   (prep_state_machine true "" true "" true "" ⟨"", ""⟩ mapEmpty
      [97]).2.2.2.2.2.2.1⟩

/-- C1: with extracted sort `"desc"` or `"asc"` the executor asks the
index for a pool of 5000 candidates — independent of the resolved limit —
under the plan's filters, re-sorts that pool by integer timestamp
(descending for `"desc"`, ascending for `"asc"`), and truncates to the
limit only after sorting; for a pool of documents with pairwise-distinct
integer timestamps and `sort = "desc"`, `limit = 3`, the output is exactly
the 3 most recent documents in strictly decreasing timestamp order,
whatever their similarity rank in the pool. -/
theorem wide_net_retrieval (search : List (String × JsonVal) → Int → List Doc)
    (fs : List (String × JsonVal)) (lim : Int) :
    k_val ⟨fs, some (JsonVal.vStr "desc"), lim⟩ = 5000 ∧
    k_val ⟨fs, some (JsonVal.vStr "asc"), lim⟩ = 5000 ∧
    retrieve search ⟨fs, some (JsonVal.vStr "desc"), lim⟩ =
      (sortDocs true (search fs 5000)).map (fun l => pySliceTo lim l) ∧
    retrieve search ⟨fs, some (JsonVal.vStr "asc"), lim⟩ =
      (sortDocs false (search fs 5000)).map (fun l => pySliceTo lim l) ∧
    List.Sorted (fun a b => intTs b ≤ intTs a)
      (pySorted intTs true (search fs 5000)) ∧
    List.Sorted (fun a b => intTs a ≤ intTs b)
      (pySorted intTs false (search fs 5000)) ∧
    (∀ pool out : List Doc,
      (∀ d ∈ pool, ∃ n : Int, d.timestamp = some (JsonVal.vInt n)) →
      (pool.map intTs).Nodup →
      retrieve (fun _ _ => pool) ⟨fs, some (JsonVal.vStr "desc"), 3⟩ = some out →
      out.length = min 3 pool.length ∧
      List.Pairwise (fun a b => intTs b < intTs a) out ∧
      (∀ d ∈ pool, d ∉ out → ∀ o ∈ out, intTs d < intTs o)) := by
  refine ⟨rfl, rfl, rfl, rfl, pySorted_sorted_desc intTs _,
    pySorted_sorted_asc intTs _, ?_⟩
  intro pool out hall hnd hret
  have hallb : (pool.all fun d => (sortKey d).isSome) = true := by
    rw [List.all_eq_true]
    intro d hd
    obtain ⟨n, hn⟩ := hall d hd
    simp [sortKey, hn, toPyInt]
  have htr : truthy (some (JsonVal.vStr "desc")) = true := by decide
  have hcomp : retrieve (fun _ _ => pool) ⟨fs, some (JsonVal.vStr "desc"), 3⟩ =
      some ((pySorted intTs true pool).take 3) := by
    simp [retrieve, k_val, htr, sortDocs, hallb, pySliceTo]
  rw [hcomp] at hret
  have hout : out = (pySorted intTs true pool).take 3 :=
    (Option.some_inj.mp hret).symm
  have hperm : (pySorted intTs true pool).Perm pool := pySorted_perm intTs true pool
  have hsorted : List.Sorted (fun a b => intTs b ≤ intTs a)
      (pySorted intTs true pool) := pySorted_sorted_desc intTs pool
  have hndL : ((pySorted intTs true pool).map intTs).Nodup :=
    ((hperm.map intTs).nodup_iff).mpr hnd
  refine ⟨?_, ?_, ?_⟩
  · rw [hout, List.length_take, hperm.length_eq]
  · have hsub : List.Sublist out (pySorted intTs true pool) := by
      rw [hout]; exact List.take_sublist 3 _
    exact sorted_strict_of_nodup intTs out (List.Pairwise.sublist hsub hsorted)
      (List.Nodup.sublist (hsub.map intTs) hndL)
  · intro d hd hdout o ho
    have hdL : d ∈ pySorted intTs true pool := hperm.mem_iff.mpr hd
    have hsplit : d ∈ (pySorted intTs true pool).take 3 ∨
        d ∈ (pySorted intTs true pool).drop 3 := by
      rw [← List.mem_append, List.take_append_drop]
      exact hdL
    have hddrop : d ∈ (pySorted intTs true pool).drop 3 :=
      hsplit.resolve_left (by rw [← hout]; exact hdout)
    have hotake : o ∈ (pySorted intTs true pool).take 3 := by
      rw [← hout]; exact ho
    exact take_dominates_drop intTs _ 3 hsorted hndL hddrop hotake

/-- C1 witness: a four-document pool with distinct timestamps in
similarity order `10, 40, 20, 30`; `sort = "desc", limit = 3` returns
exactly the documents with timestamps `40, 30, 20`, in that order. -/
theorem wide_net_retrieval_witness :
    (∀ d ∈ poolA, ∃ n : Int, d.timestamp = some (JsonVal.vInt n)) ∧
    (poolA.map intTs).Nodup ∧
    retrieve (fun _ _ => poolA) ⟨[], some (JsonVal.vStr "desc"), 3⟩ =
      some outA ∧
    (outA.length = min 3 poolA.length ∧
      List.Pairwise (fun a b : Doc => intTs b < intTs a) outA ∧
      (∀ d ∈ poolA, d ∉ outA → ∀ o ∈ outA, intTs d < intTs o)) := by
  have h1 : ∀ d ∈ poolA, ∃ n : Int, d.timestamp = some (JsonVal.vInt n) := by
    intro d hd
    simp only [poolA, List.mem_cons, List.not_mem_nil, or_false] at hd
    rcases hd with rfl | rfl | rfl | rfl
    exacts [⟨10, rfl⟩, ⟨40, rfl⟩, ⟨20, rfl⟩, ⟨30, rfl⟩]
  have h2 : (poolA.map intTs).Nodup := by decide
  have h3 : retrieve (fun _ _ => poolA) ⟨[], some (JsonVal.vStr "desc"), 3⟩ =
      some outA := by decide
  exact ⟨h1, h2, h3,
    (wide_net_retrieval (fun _ _ => poolA) [] 3).2.2.2.2.2.2 poolA outA h1 h2 h3⟩

/-- C10: the wide-net timestamp re-sort is stable — for every candidate
pool and timestamp value, the documents carrying that timestamp appear in
the sorted pool in exactly their similarity-ranking order, and in the
final (truncated) output as a prefix of that subsequence; the executor is
a pure function of the pool, so repeated runs agree. -/
theorem wide_net_stability (rev : Bool) (pool : List Doc) (t : Int)
    (fs : List (String × JsonVal)) (lim : Int) (sv : JsonVal)
    (out : List Doc) :
    ((pySorted intTs rev pool).filter (fun d => decide (intTs d = t)) =
      pool.filter (fun d => decide (intTs d = t))) ∧
    (truthy (some sv) = true →
      retrieve (fun _ _ => pool) ⟨fs, some sv, lim⟩ = some out →
      ∃ rest, pool.filter (fun d => decide (intTs d = t)) =
        out.filter (fun d => decide (intTs d = t)) ++ rest) := by
  refine ⟨filter_pySorted intTs rev t pool, ?_⟩
  intro htr hret
  simp only [retrieve, k_val, htr, if_true] at hret
  cases hall : (pool.all fun d => (sortKey d).isSome) with
  | false =>
    rw [sortDocs, hall] at hret
    simp at hret
  | true =>
    rw [sortDocs, hall] at hret
    simp only [if_true, Option.map_some', Option.some.injEq] at hret
    set rv := decide (sv = JsonVal.vStr "desc") with hrv
    obtain ⟨m, hm⟩ := pySliceTo_eq_take lim (pySorted intTs rv pool)
    refine ⟨((pySorted intTs rv pool).drop m).filter
      (fun d => decide (intTs d = t)), ?_⟩
    rw [← hret, hm, ← List.filter_append, List.take_append_drop,
      filter_pySorted]

/-- C10 witness: a pool whose documents `x` and `y` share timestamp 2;
descending retrieval returns `z, x, y` — the tied documents keep their
similarity order, and the timestamp-2 documents of the output form a
prefix of those of the pool. -/
theorem wide_net_stability_witness :
    truthy (some (JsonVal.vStr "desc")) = true ∧
    retrieve (fun _ _ => poolB) ⟨[], some (JsonVal.vStr "desc"), 3⟩ =
      some outB ∧
    (∃ rest, poolB.filter (fun d => decide (intTs d = 2)) =
      outB.filter (fun d => decide (intTs d = 2)) ++ rest) := by
  have h1 : truthy (some (JsonVal.vStr "desc")) = true := by decide
  have h2 : retrieve (fun _ _ => poolB) ⟨[], some (JsonVal.vStr "desc"), 3⟩ =
      some outB := by decide
  exact ⟨h1, h2,
    (wide_net_stability true poolB 2 [] 3 (JsonVal.vStr "desc") outB).2 h1 h2⟩

end ChainRAG
